import Mathlib

/-!
Shallow embedding of the result-reading layer of the cpp-rust-driver
(`scylla-rust-wrapper/src/query_result.rs`): the value decoding engine
(`decode_value`, `decode_next_row`), the iterator state machine
(`cass_iterator_next` and the accessors), collection iterator construction,
the typed scalar accessors generated by `cass_value_get_strict_type!`, and
column lookup by name.

Byte spans of the response frame are modelled as lists of byte values
(`Frame`); strings as lists of characters (`Str`).  Rust panics
(`assert!`/`unwrap` failures) are modelled by the `Outcome.crash`
constructor; a returned null pointer is `none`.  The wire-format helpers of
the underlying driver crate (`types::read_int_length`, element parsing done
by `SequenceIterator`/`MapIterator`) are modelled from their documented
behaviour: a 4-byte big-endian signed length prefix, negative length
meaning a null span.
-/

set_option autoImplicit false

namespace QueryResultSpec

/-- Byte span into the response buffer (a `FrameSlice`). -/
abbrev Frame := List Nat

/-- Column / lookup names, modelled as character lists. -/
abbrev Str := List Char

/-- Result of a boundary call that can panic: `crash` models a Rust
`panic!`/failed `assert!`/`unwrap` of an absent value. -/
inductive Outcome (α : Type) where
  | crash : Outcome α
  | ok (a : α) : Outcome α
  deriving DecidableEq, Repr

def Outcome.map {α β : Type} (f : α → β) : Outcome α → Outcome β
  | .crash => .crash
  | .ok a => .ok (f a)

/-- Declared column type (`scylla::frame::response::result::ColumnType`),
restricted to the constructors the wrapper distinguishes. -/
inductive ColumnType where
  | ascii
  | boolean
  | blob
  | counter
  | date
  | decimal
  | double
  | duration
  | float
  | int
  | bigint
  | text
  | timestamp
  | inet
  | smallint
  | tinyint
  | time
  | timeuuid
  | uuid
  | varint
  | list (elem : ColumnType)
  | set (elem : ColumnType)
  | map (key : ColumnType) (val : ColumnType)
  | tuple (elems : List ColumnType)
  | udt (fields : List (Str × ColumnType))

/-- Modelled from the spec: the missing `cass_types` module wraps the wire
`ColumnType` into a driver `CassDataType` preserving its shape; we identify
the two. -/
abbrev CassDataType := ColumnType

/-- Modelled from the spec: `get_column_type` maps a declared wire type to
the driver data type; with `CassDataType` identified with `ColumnType` it
is the identity. -/
def get_column_type (t : ColumnType) : CassDataType := t

/-- Modelled from the spec: a declared type is a collection iff it is a
list, set or map. -/
def ColumnType.is_collection : ColumnType → Bool
  | .list _ | .set _ | .map _ _ => true
  | _ => false

/-- Modelled from the spec: a declared type is a map check. -/
def ColumnType.is_map : ColumnType → Bool
  | .map _ _ => true
  | _ => false

/-- Modelled from the spec: tuple check. -/
def ColumnType.is_tuple : ColumnType → Bool
  | .tuple _ => true
  | _ => false

/-- Modelled from the spec: user-defined-type check. -/
def ColumnType.is_user_type : ColumnType → Bool
  | .udt _ => true
  | _ => false

/-- Number of declared tuple element types (`get_tuple_types().len()`). -/
def ColumnType.tuple_arity : ColumnType → Nat
  | .tuple ds => ds.length
  | _ => 0

/-- Number of declared user-type fields
(`get_udt_type().field_types.len()`). -/
def ColumnType.udt_arity : ColumnType → Nat
  | .udt fs => fs.length
  | _ => 0

/-- The boundary value-type enumeration (`CassValueType`), restricted to
the constructors used here. -/
inductive CassValueType where
  | unknown
  | ascii
  | bigint
  | blob
  | boolean
  | counter
  | decimal
  | double
  | duration
  | float
  | int
  | text
  | timestamp
  | uuid
  | varchar
  | timeuuid
  | inet
  | date
  | time
  | smallInt
  | tinyInt
  | varint
  | list
  | map
  | set
  | udt
  | tuple
  deriving DecidableEq, Repr

/-- Modelled from the spec: `cass_data_type_type` projects a data type to
the boundary value-type tag. -/
def cass_data_type_type : CassDataType → CassValueType
  | .ascii => .ascii
  | .boolean => .boolean
  | .blob => .blob
  | .counter => .counter
  | .date => .date
  | .decimal => .decimal
  | .double => .double
  | .duration => .duration
  | .float => .float
  | .int => .int
  | .bigint => .bigint
  | .text => .varchar
  | .timestamp => .timestamp
  | .inet => .inet
  | .smallint => .smallInt
  | .tinyint => .tinyInt
  | .time => .time
  | .timeuuid => .timeuuid
  | .uuid => .uuid
  | .varint => .varint
  | .list _ => .list
  | .set _ => .set
  | .map _ _ => .map
  | .tuple _ => .tuple
  | .udt _ => .udt

/-- Shared boundary error enumeration (the members used by this layer). -/
inductive CassError where
  | CASS_OK
  | CASS_ERROR_LIB_NULL_VALUE
  | CASS_ERROR_LIB_INVALID_VALUE_TYPE
  | CASS_ERROR_LIB_NOT_ENOUGH_DATA
  | CASS_ERROR_LIB_BAD_PARAMS
  | CASS_ERROR_LIB_INDEX_OUT_OF_BOUNDS
  | CASS_ERROR_LIB_NO_PAGING_STATE
  deriving DecidableEq, Repr

/-- Modelled from the spec: `types::read_int` of the driver crate reads a
4-byte big-endian integer from the span.  Returns the raw unsigned value
and the rest of the span. -/
def readBe4 : Frame → Option (Nat × Frame)
  | b0 :: b1 :: b2 :: b3 :: rest =>
      some (((b0 * 256 + b1) * 256 + b2) * 256 + b3, rest)
  | _ => none

/-- Modelled from the spec: `types::read_int_length` reads a 4-byte length
prefix and fails when it is negative (sign bit set). -/
def readIntLength (f : Frame) : Option (Nat × Frame) :=
  match readBe4 f with
  | some (n, rest) => if n < 2 ^ 31 then some (n, rest) else none
  | none => none

/-- Modelled from the spec: element parsing done by the driver iterators — a
`[length][bytes]` cell where a negative length denotes a null span. -/
def readValue (f : Frame) : Option (Option Frame × Frame) :=
  match readBe4 f with
  | none => none
  | some (n, rest) =>
      if n < 2 ^ 31 then
        if n ≤ rest.length then some (some (rest.take n), rest.drop n)
        else none
      else some (none, rest)

/-- A raw, not-yet-decoded value: declared type plus optional byte span
(`RawValue` of the wrapper; its `DeserializeCql` impl always succeeds). -/
structure RawValue where
  spec : ColumnType
  slice : Option Frame

/-- Decoded (or deferred) column value (`CassValue`). -/
structure CassValue where
  frame_slice : Option Frame
  is_null : Bool
  count : Nat
  value_type : CassDataType
  column_type : ColumnType

/-- Direct embedding of `decode_value`: derives `is_null` from the span,
eagerly counts children of collections (from the length prefix), tuples and
user types (from the declared type), and defers everything else. -/
def decode_value (raw_value : RawValue) (val_type : ColumnType) :
    Option CassValue :=
  let data_type := get_column_type val_type
  let frame_slice := raw_value.slice
  let is_null : Bool :=
    match frame_slice with
    | none => true
    | some f => f.isEmpty
  let countOpt : Option Nat :=
    match frame_slice with
    | some frame =>
        if data_type.is_collection then
          match readIntLength frame with
          | some (len, _) => some len
          | none => none
        else if data_type.is_user_type then some data_type.udt_arity
        else if data_type.is_tuple then some data_type.tuple_arity
        else some 0
    | none => some 0
  match countOpt with
  | none => none
  | some count =>
      some { frame_slice := frame_slice
             is_null := is_null
             count := count
             value_type := data_type
             column_type := val_type }

/-- A rows-kind response page: the column specifications plus the raw rows
(one optional byte span per column).  Models the parsed rows of the
underlying `QueryResult`; per-column parse errors of the driver's
`ColumnIterator` are not modelled (the wrapper's `RawValue` deserializer
itself never fails). -/
structure RowsPage where
  specs : List (Str × ColumnType)
  rows : List (List (Option Frame))

/-- The underlying driver `QueryResult`: `rowsPage = none` models a
response that is not a rows result (`rows()` and `rows_num()` fail). -/
structure QueryResultM where
  rowsPage : Option RowsPage

/-- The driver's `QueryResult::rows_num()`. -/
def rows_num (q : QueryResultM) : Option Nat :=
  q.rowsPage.map (fun p => p.rows.length)

/-- The driver's `QueryResult::column_specs()`. -/
def column_specs (q : QueryResultM) : Option (List (Str × ColumnType)) :=
  q.rowsPage.map (fun p => p.specs)

/-- A row: its already-decoded column values (`CassRow`).  The weak
back-reference to the owning result is modelled by passing the result
explicitly to the operations that upgrade it. -/
structure CassRow where
  columns : List CassValue

/-- The boundary result object (`CassResult`). -/
structure CassResult where
  result : QueryResultM
  first_row : Option CassRow

/-- Loop body of `decode_next_row`: writes the decoded value of each
column into `row.columns[i]`; Rust's indexed assignment panics out of
bounds, hence the bound check. -/
def setColumns (cols : List CassValue) (i : Nat)
    (l : List ((Str × ColumnType) × Option Frame)) :
    Outcome (List CassValue × Bool) :=
  match l with
  | [] => .ok (cols, true)
  | (spec, slice) :: rest =>
      match decode_value { spec := spec.2, slice := slice } spec.2 with
      | some v =>
          if i < cols.length then setColumns (cols.set i v) (i + 1) rest
          else .crash
      | none => .ok (cols, false)

/-- Direct embedding of `decode_next_row`.  The Rust code builds a fresh
`rows_iter` from the result on every call and takes its first element
(`rows_iter.next().unwrap()`), so the row that gets decoded is always the
first row of the response; `unwrap_or_return_false!` on a non-rows result
yields `false`, and `next().unwrap()` on an empty rows list panics. -/
def decode_next_row (result : CassResult) (row : Option CassRow) :
    Outcome (Option CassRow × Bool) :=
  match row with
  | none => .ok (none, true)
  | some r =>
      match result.result.rowsPage with
      | none => .ok (some r, false)
      | some pg =>
          match pg.rows with
          | [] => .crash
          | first :: _ =>
              match setColumns r.columns 0 (pg.specs.zip first) with
              | .crash => .crash
              | .ok (cols, b) => .ok (some { columns := cols }, b)

/-- State of a result iterator (`CassResultIterator`). -/
structure CassResultIterator where
  result : CassResult
  row : Option CassRow
  position : Option Nat

/-- State of a row (column) iterator (`CassRowIterator`). -/
structure CassRowIterator where
  row : CassRow
  position : Option Nat

/-- State of a sequence (list/set elements) iterator
(`CassSequenceIterator`); the driver `SequenceIterator` is modelled as the
list of its remaining elements, `none` marking a parse error result. -/
structure CassSequenceIterator where
  sequence_iterator : List (Option RawValue)
  value : Option CassValue
  count : Nat
  position : Option Nat

/-- State of a tuple iterator (`CassTupleIterator`); each yielded raw
value carries the whole tuple type as its spec. -/
structure CassTupleIterator where
  sequence_iterator : List (Option RawValue)
  value : Option CassValue
  count : Nat
  position : Option Nat

/-- State of a map iterator (`CassMapIterator`); the driver `MapIterator`
is modelled as the list of its remaining key/value pairs, `none` marking a
parse error result. -/
structure CassMapIterator where
  map_iterator : List (Option (RawValue × RawValue))
  key : Option CassValue
  value : Option CassValue
  count : Nat
  position : Option Nat

/-- State of a user-defined-type field iterator (`CassUdtIterator`); an
element is `(field spec, presence-wrapped optional span)`: the outer
option of the payload mirrors the driver's "field present in the wire
value" layer, the inner one the null-value layer. -/
structure CassUdtIterator where
  udt_iterator : List (Option ((Str × ColumnType) × Option (Option Frame)))
  field_value : Option CassValue
  field_name : Option Str
  count : Nat
  position : Option Nat

/-- Common state of the metadata-tree iterators (`CassSchemaMetaIterator`,
`CassKeyspaceMetaIterator`, `CassTableMetaIterator`,
`CassViewMetaIterator`): advance only consults the element count and the
position; the backing metadata reference is omitted because no claim reads
through it. -/
structure CassMetaIterator where
  count : Nat
  position : Option Nat

/-- Collection iterator (`CassCollectionIterator`): sequential iteration
over list/set elements or over a map presented as a flat sequence. -/
inductive CassCollectionIterator where
  | sequenceIterator (s : CassSequenceIterator)
  | seqMapIterator (m : CassMapIterator)

/-- The iterator variants (`CassIterator`). -/
inductive CassIterator where
  | resultIter (s : CassResultIterator)
  | rowIter (s : CassRowIterator)
  | collectionIter (c : CassCollectionIterator)
  | tupleIter (s : CassTupleIterator)
  | mapIter (s : CassMapIterator)
  | udtIter (s : CassUdtIterator)
  | schemaMetaIter (s : CassMetaIterator)
  | keyspaceMetaTableIter (s : CassMetaIterator)
  | keyspaceMetaUserTypeIter (s : CassMetaIterator)
  | keyspaceMetaViewIter (s : CassMetaIterator)
  | tableMetaIter (s : CassMetaIterator)
  | viewMetaIter (s : CassMetaIterator)

/-- Successor position: `position.map_or(0, |prev| prev + 1)`. -/
def nextPos : Option Nat → Nat
  | none => 0
  | some p => p + 1

/-- The stored cursor position of any iterator variant. -/
def positionOf : CassIterator → Option Nat
  | .resultIter s => s.position
  | .rowIter s => s.position
  | .collectionIter (.sequenceIterator s) => s.position
  | .collectionIter (.seqMapIterator s) => s.position
  | .tupleIter s => s.position
  | .mapIter s => s.position
  | .udtIter s => s.position
  | .schemaMetaIter s => s.position
  | .keyspaceMetaTableIter s => s.position
  | .keyspaceMetaUserTypeIter s => s.position
  | .keyspaceMetaViewIter s => s.position
  | .tableMetaIter s => s.position
  | .viewMetaIter s => s.position

/-- Direct embedding of `cass_iterator_next`: every branch first stores the
incremented position, then attempts to decode/fetch the element there. -/
def cass_iterator_next : CassIterator → Outcome (CassIterator × Bool)
  | .resultIter st =>
      let new_pos := nextPos st.position
      let st1 := { st with position := some new_pos }
      match rows_num st1.result.result with
      | some rs =>
          if new_pos < rs then
            match decode_next_row st1.result st1.row with
            | .crash => .crash
            | .ok (row2, b) => .ok (.resultIter { st1 with row := row2 }, b)
          else .ok (.resultIter st1, false)
      | none => .ok (.resultIter st1, false)
  | .rowIter st =>
      let new_pos := nextPos st.position
      let st1 := { st with position := some new_pos }
      .ok (.rowIter st1, decide (new_pos < st1.row.columns.length))
  | .collectionIter (.sequenceIterator st) =>
      let new_pos := nextPos st.position
      let st1 := { st with position := some new_pos }
      if new_pos < st1.count then
        match st1.sequence_iterator with
        | [] => .crash
        | r :: rest =>
            match r with
            | some raw =>
                .ok (.collectionIter (.sequenceIterator
                  { st1 with sequence_iterator := rest
                             value := decode_value raw raw.spec }), true)
            | none =>
                .ok (.collectionIter (.sequenceIterator
                  { st1 with sequence_iterator := rest }), false)
      else .ok (.collectionIter (.sequenceIterator st1), false)
  | .collectionIter (.seqMapIterator st) =>
      let new_pos := nextPos st.position
      let st1 := { st with position := some new_pos }
      if new_pos < st1.count then
        if new_pos % 2 == 0 then
          match st1.map_iterator with
          | [] => .crash
          | pr :: rest =>
              match pr with
              | some (rk, rv) =>
                  .ok (.collectionIter (.seqMapIterator
                    { st1 with map_iterator := rest
                               key := decode_value rk rk.spec
                               value := decode_value rv rv.spec }), true)
              | none =>
                  .ok (.collectionIter (.seqMapIterator
                    { st1 with map_iterator := rest }), true)
        else .ok (.collectionIter (.seqMapIterator st1), true)
      else .ok (.collectionIter (.seqMapIterator st1), false)
  | .tupleIter st =>
      let new_pos := nextPos st.position
      let st1 := { st with position := some new_pos }
      if new_pos < st1.count then
        match st1.sequence_iterator with
        | [] => .crash
        | r :: rest =>
            match r with
            | some raw =>
                match raw.spec with
                | .tuple defs =>
                    match defs.get? new_pos with
                    | some spec =>
                        .ok (.tupleIter
                          { st1 with sequence_iterator := rest
                                     value := decode_value raw spec }, true)
                    | none =>
                        .ok (.tupleIter
                          { st1 with sequence_iterator := rest }, false)
                | _ => .crash
            | none => .ok (.tupleIter { st1 with sequence_iterator := rest }, false)
      else .ok (.tupleIter st1, false)
  | .mapIter st =>
      let new_pos := nextPos st.position
      let st1 := { st with position := some new_pos }
      if new_pos < st1.count then
        match st1.map_iterator with
        | [] => .crash
        | pr :: rest =>
            match pr with
            | some (rk, rv) =>
                .ok (.mapIter
                  { st1 with map_iterator := rest
                             key := decode_value rk rk.spec
                             value := decode_value rv rv.spec }, true)
            | none => .ok (.mapIter { st1 with map_iterator := rest }, false)
      else .ok (.mapIter st1, false)
  | .udtIter st =>
      let new_pos := nextPos st.position
      let st1 := { st with position := some new_pos }
      if new_pos < st1.count then
        match st1.udt_iterator with
        | [] => .crash
        | e :: rest =>
            match e with
            | some (nt, some fs) =>
                .ok (.udtIter
                  { st1 with udt_iterator := rest
                             field_value := decode_value { spec := nt.2, slice := fs } nt.2
                             field_name := some nt.1 }, true)
            | _ => .ok (.udtIter { st1 with udt_iterator := rest }, false)
      else .ok (.udtIter st1, false)
  | .schemaMetaIter st =>
      let new_pos := nextPos st.position
      let st1 := { st with position := some new_pos }
      .ok (.schemaMetaIter st1, decide (new_pos < st1.count))
  | .keyspaceMetaTableIter st =>
      let new_pos := nextPos st.position
      let st1 := { st with position := some new_pos }
      .ok (.keyspaceMetaTableIter st1, decide (new_pos < st1.count))
  | .keyspaceMetaUserTypeIter st =>
      let new_pos := nextPos st.position
      let st1 := { st with position := some new_pos }
      .ok (.keyspaceMetaUserTypeIter st1, decide (new_pos < st1.count))
  | .keyspaceMetaViewIter st =>
      let new_pos := nextPos st.position
      let st1 := { st with position := some new_pos }
      .ok (.keyspaceMetaViewIter st1, decide (new_pos < st1.count))
  | .tableMetaIter st =>
      let new_pos := nextPos st.position
      let st1 := { st with position := some new_pos }
      .ok (.tableMetaIter st1, decide (new_pos < st1.count))
  | .viewMetaIter st =>
      let new_pos := nextPos st.position
      let st1 := { st with position := some new_pos }
      .ok (.viewMetaIter st1, decide (new_pos < st1.count))

/-- Run `cass_iterator_next` `k + 1` times from a state, threading the
updated iterator; a panic anywhere gives `crash`. -/
def runNext (it : CassIterator) : Nat → Outcome (CassIterator × Bool)
  | 0 => cass_iterator_next it
  | k + 1 =>
      match cass_iterator_next it with
      | .crash => .crash
      | .ok (it2, _) => runNext it2 k

/-- Boolean outcome of the `(k + 1)`-th `cass_iterator_next` call. -/
def nthResult (it : CassIterator) (k : Nat) : Outcome Bool :=
  (runNext it k).map (fun p => p.2)

/-- Direct embedding of `cass_iterator_get_row`: defined only for the
result iterator; null before the first advance or once past the rows. -/
def cass_iterator_get_row : CassIterator → Option CassRow
  | .resultIter st =>
      match st.position with
      | none => none
      | some pos =>
          match rows_num st.result.result with
          | some rows_count =>
              match st.row with
              | some row => if pos < rows_count then some row else none
              | none => none
          | none => none
  | _ => none

/-- Direct embedding of `cass_iterator_get_value`: defined for collection
(list/set, and map-as-flat-sequence) and tuple iterators; for the flat map
presentation the key is exposed at even positions and the value at odd
ones. -/
def cass_iterator_get_value : CassIterator → Option CassValue
  | .collectionIter (.sequenceIterator st) =>
      match st.value with
      | some v => some v
      | none => none
  | .collectionIter (.seqMapIterator st) =>
      match st.key, st.value, st.position with
      | some k, some v, some pos => some (if pos % 2 == 0 then k else v)
      | _, _, _ => none
  | .tupleIter st =>
      match st.value with
      | some v => some v
      | none => none
  | _ => none

/-- Direct embedding of `cass_iterator_get_map_key`.  The Rust code runs
`assert!(position.map(|pos| pos < count).is_some())` — which fails whenever
`position` is `None` — and then unwraps the stored key, so both the
never-advanced and the advanced-but-never-successful states panic. -/
def cass_iterator_get_map_key : CassIterator → Outcome (Option CassValue)
  | .mapIter st =>
      if (st.position.map (fun pos => decide (pos < st.count))).isSome then
        match st.key with
        | some k => .ok (some k)
        | none => .crash
      else .crash
  | .collectionIter (.seqMapIterator st) =>
      match st.key with
      | some k => .ok (some k)
      | none => .crash
  | .collectionIter (.sequenceIterator _) => .ok none
  | _ => .ok none

/-- Direct embedding of `cass_iterator_get_map_value` (same assertion and
unwrap pattern as the key accessor). -/
def cass_iterator_get_map_value : CassIterator → Outcome (Option CassValue)
  | .mapIter st =>
      if (st.position.map (fun pos => decide (pos < st.count))).isSome then
        match st.value with
        | some v => .ok (some v)
        | none => .crash
      else .crash
  | .collectionIter (.seqMapIterator st) =>
      match st.value with
      | some v => .ok (some v)
      | none => .crash
  | .collectionIter (.sequenceIterator _) => .ok none
  | _ => .ok none

/-- Direct embedding of `cass_iterator_from_result`: the iterator starts
uninitialized and carries its own copy of the first row. -/
def cass_iterator_from_result (result : CassResult) : CassIterator :=
  .resultIter { result := result, row := result.first_row, position := none }

/-- Direct embedding of `cass_iterator_from_row`. -/
def cass_iterator_from_row (row : CassRow) : CassIterator :=
  .rowIter { row := row, position := none }

/-- Modelled from the spec: element stream of the driver
`SequenceIterator` — `fuel` elements parsed off the span, each tagged with
the declared element type; a parse failure poisons the rest of the
stream. -/
def parseElems (et : ColumnType) (fuel : Nat) (f : Frame) :
    List (Option RawValue) :=
  match fuel with
  | 0 => []
  | n + 1 =>
      match readValue f with
      | none => List.replicate (n + 1) none
      | some (sl, rest) => some { spec := et, slice := sl } :: parseElems et n rest

/-- Modelled from the spec: pair stream of the driver `MapIterator`. -/
def parsePairs (kt vt : ColumnType) (fuel : Nat) (f : Frame) :
    List (Option (RawValue × RawValue)) :=
  match fuel with
  | 0 => []
  | n + 1 =>
      match readValue f with
      | none => List.replicate (n + 1) none
      | some (ks, f1) =>
          match readValue f1 with
          | none => List.replicate (n + 1) none
          | some (vs, f2) =>
              some ({ spec := kt, slice := ks }, { spec := vt, slice := vs })
                :: parsePairs kt vt n f2

/-- Modelled from the spec: `SequenceIterator::deserialize` on a list/set
span — type-checks the declared type, reads the element-count prefix and
exposes the element stream. -/
def seqIterOf (t : ColumnType) (s : Option Frame) :
    Option (List (Option RawValue)) :=
  let elemType : Option ColumnType :=
    match t with
    | .list e => some e
    | .set e => some e
    | _ => none
  match elemType with
  | none => none
  | some et =>
      match s with
      | none => some []
      | some f =>
          match readIntLength f with
          | none => none
          | some (n, rest) => some (parseElems et n rest)

/-- Modelled from the spec: `MapIterator::deserialize` on a map span. -/
def mapIterOf (t : ColumnType) (s : Option Frame) :
    Option (List (Option (RawValue × RawValue))) :=
  match t with
  | .map kt vt =>
      match s with
      | none => some []
      | some f =>
          match readIntLength f with
          | none => none
          | some (n, rest) => some (parsePairs kt vt n rest)
  | _ => none

/-- Direct embedding of `cass_iterator_from_collection`: null for a null or
non-collection value; a map value becomes the flat alternating iterator
with doubled count; the remaining branch of the Rust `match` is a
`panic!`. -/
def cass_iterator_from_collection (v : CassValue) :
    Outcome (Option CassIterator) :=
  if !v.is_null && v.value_type.is_collection then
    match v.column_type with
    | .map kt vt =>
        match mapIterOf (ColumnType.map kt vt) v.frame_slice with
        | some pairs =>
            .ok (some (.collectionIter (.seqMapIterator
              { map_iterator := pairs
                key := none
                value := none
                count := v.count * 2
                position := none })))
        | none => .ok none
    | .set e =>
        match seqIterOf (ColumnType.set e) v.frame_slice with
        | some elems =>
            .ok (some (.collectionIter (.sequenceIterator
              { sequence_iterator := elems
                value := none
                count := v.count
                position := none })))
        | none => .ok none
    | .list e =>
        match seqIterOf (ColumnType.list e) v.frame_slice with
        | some elems =>
            .ok (some (.collectionIter (.sequenceIterator
              { sequence_iterator := elems
                value := none
                count := v.count
                position := none })))
        | none => .ok none
    | _ => .crash
  else .ok none

/-- Direct embedding of `cass_iterator_from_map`. -/
def cass_iterator_from_map (v : CassValue) : Option CassIterator :=
  if !v.is_null && v.value_type.is_map then
    match mapIterOf v.column_type v.frame_slice with
    | some pairs =>
        some (.mapIter
          { map_iterator := pairs
            key := none
            value := none
            count := v.count
            position := none })
    | none => none
  else none

/-- Direct embedding of `cass_value_is_null` (on a present value; a null
handle also reads as null in the Rust code). -/
def cass_value_is_null (v : CassValue) : Bool :=
  v.is_null

/-- Direct embedding of `cass_value_type` =
`cass_data_type_type(value.value_type)`. -/
def cass_value_type (v : CassValue) : CassValueType :=
  cass_data_type_type v.value_type

/-- Modelled from the spec: success of the driver's strict wire-format
parse of a span as the given type ("the span is parsed strictly as that
exact wire encoding").  Fixed-width scalars need exactly their width; an
absent span fails. -/
def wireParseOk : ColumnType → Option Frame → Bool
  | _, none => false
  | .boolean, some f => f.length == 1
  | .tinyint, some f => f.length == 1
  | .smallint, some f => f.length == 2
  | .int, some f => f.length == 4
  | .bigint, some f => f.length == 8
  | .float, some f => f.length == 4
  | .double, some f => f.length == 8
  | .uuid, some f => f.length == 16
  | .inet, some f => f.length == 4 || f.length == 16
  | .date, some f => f.length == 4
  | _, some _ => true

/-- Common shape of the accessors generated by `cass_value_get_strict_type!`:
null check first, then the declared-type match, then the strict parse. -/
def cass_value_get_strict (accepts : CassValueType → Bool)
    (wire : ColumnType) (v : CassValue) : CassError :=
  if cass_value_is_null v then .CASS_ERROR_LIB_NULL_VALUE
  else if accepts (cass_value_type v) then
    if wireParseOk wire v.frame_slice then .CASS_OK
    else .CASS_ERROR_LIB_NOT_ENOUGH_DATA
  else .CASS_ERROR_LIB_INVALID_VALUE_TYPE

/-- `cass_value_get_bool`. -/
def cass_value_get_bool (v : CassValue) : CassError :=
  cass_value_get_strict
    (fun t => match t with | .boolean => true | _ => false) .boolean v

/-- `cass_value_get_float`. -/
def cass_value_get_float (v : CassValue) : CassError :=
  cass_value_get_strict
    (fun t => match t with | .float => true | _ => false) .float v

/-- `cass_value_get_double`. -/
def cass_value_get_double (v : CassValue) : CassError :=
  cass_value_get_strict
    (fun t => match t with | .double => true | _ => false) .double v

/-- `cass_value_get_int8`. -/
def cass_value_get_int8 (v : CassValue) : CassError :=
  cass_value_get_strict
    (fun t => match t with | .tinyInt => true | _ => false) .tinyint v

/-- `cass_value_get_int16`. -/
def cass_value_get_int16 (v : CassValue) : CassError :=
  cass_value_get_strict
    (fun t => match t with | .smallInt => true | _ => false) .smallint v

/-- `cass_value_get_int32`. -/
def cass_value_get_int32 (v : CassValue) : CassError :=
  cass_value_get_strict
    (fun t => match t with | .int => true | _ => false) .int v

/-- `cass_value_get_int64`: accepts the whole 64-bit family — bigint,
counter, timestamp and time — and parses as an 8-byte integer. -/
def cass_value_get_int64 (v : CassValue) : CassError :=
  cass_value_get_strict
    (fun t => match t with
      | .bigint | .counter | .timestamp | .time => true
      | _ => false) .bigint v

/-- `cass_value_get_string`: accepts the string family. -/
def cass_value_get_string (v : CassValue) : CassError :=
  cass_value_get_strict
    (fun t => match t with
      | .ascii | .text | .varchar => true
      | _ => false) .text v

/-- `cass_value_get_bytes`: its declared-type pattern in the Rust macro is
the wildcard, so every value type is accepted. -/
def cass_value_get_bytes (v : CassValue) : CassError :=
  cass_value_get_strict (fun _ => true) .blob v

/-- `cass_value_get_uuid`: accepts uuid and timeuuid. -/
def cass_value_get_uuid (v : CassValue) : CassError :=
  cass_value_get_strict
    (fun t => match t with
      | .uuid | .timeuuid => true
      | _ => false) .uuid v

/-- `cass_value_get_inet`. -/
def cass_value_get_inet (v : CassValue) : CassError :=
  cass_value_get_strict
    (fun t => match t with | .inet => true | _ => false) .inet v

/-- `cass_value_get_uint32` (date). -/
def cass_value_get_uint32 (v : CassValue) : CassError :=
  cass_value_get_strict
    (fun t => match t with | .date => true | _ => false) .date v

/-- `cass_value_get_duration`. -/
def cass_value_get_duration (v : CassValue) : CassError :=
  cass_value_get_strict
    (fun t => match t with | .duration => true | _ => false) .duration v

/-- Direct embedding of the hand-written `cass_value_get_decimal`: null
check, decimal type check, then a 4-byte scale read off the span. -/
def cass_value_get_decimal (v : CassValue) : CassError :=
  if cass_value_is_null v then .CASS_ERROR_LIB_NULL_VALUE
  else
    match cass_value_type v with
    | .decimal =>
        match v.frame_slice with
        | some f =>
            match readBe4 f with
            | some _ => .CASS_OK
            | none => .CASS_ERROR_LIB_NOT_ENOUGH_DATA
        | none => .CASS_ERROR_LIB_NOT_ENOUGH_DATA
    | _ => .CASS_ERROR_LIB_INVALID_VALUE_TYPE

/-- Ascii lower-casing of one character (Rust `to_ascii_lowercase`). -/
def toLowerAscii (c : Char) : Char :=
  if 65 ≤ c.toNat ∧ c.toNat ≤ 90 then Char.ofNat (c.toNat + 32) else c

/-- Rust `str::eq_ignore_ascii_case`: equal length and characters equal up
to ascii case. -/
def eqIgnoreAsciiCase (a b : Str) : Bool :=
  a.map toLowerAscii == b.map toLowerAscii

/-- Rust `str::starts_with(char)`. -/
def strStartsWith (s : Str) (c : Char) : Bool :=
  match s with
  | [] => false
  | a :: _ => a == c

/-- Rust `str::ends_with(char)`. -/
def strEndsWith (s : Str) (c : Char) : Bool :=
  match s.getLast? with
  | some a => a == c
  | none => false

/-- Rust `str::strip_prefix(char)`. -/
def stripHead (s : Str) (c : Char) : Option Str :=
  match s with
  | [] => none
  | a :: rest => if a == c then some rest else none

/-- Rust `str::strip_suffix(char)`. -/
def stripLast (s : Str) (c : Char) : Option Str :=
  match s.getLast? with
  | some a => if a == c then some s.dropLast else none
  | none => none

/-- The linear scan of `cass_row_get_column_by_name_n` over the column
specs, followed by the indexed read of the row's columns (null when the
index is absent from the row). -/
def columnLookup (result : CassResult) (row : CassRow) (nm : Str)
    (is_case_sensitive : Bool) : Option CassValue :=
  match column_specs result.result with
  | none => none
  | some col_specs =>
      match List.findIdx?
          (fun spec =>
            (is_case_sensitive && spec.1 == nm)
              || (!is_case_sensitive && eqIgnoreAsciiCase spec.1 nm))
          col_specs with
      | none => none
      | some index => row.columns.get? index

/-- Direct embedding of `cass_row_get_column_by_name_n`.  The weak
back-reference from the row to its result is modelled by the explicit
`result` argument (the Rust code upgrades and unwraps it).  A name that
both starts and ends with a quote character is stripped on both sides with
`strip_prefix(..).unwrap()` / `strip_suffix(..).unwrap()`; for the
single-character name `"` the suffix strip runs on the already-emptied
string and the unwrap panics. -/
def cass_row_get_column_by_name_n (result : CassResult) (row : CassRow)
    (name : Str) : Outcome (Option CassValue) :=
  if strStartsWith name '"' && strEndsWith name '"' then
    match stripHead name '"' with
    | none => .crash
    | some s1 =>
        match stripLast s1 '"' with
        | none => .crash
        | some s2 => .ok (columnLookup result row s2 true)
  else .ok (columnLookup result row name false)

/-- Lookup behaviour as the specification words it: a name wrapped in
quote characters is stripped of them and matched case-sensitively and
exactly against the column specs, any other name is matched
case-insensitively; the first matching spec's column is returned and a
missing match gives null. -/
def lookupByNameSpec (specs : Option (List (Str × ColumnType)))
    (cols : List CassValue) (name : Str) : Option CassValue :=
  match specs with
  | none => none
  | some col_specs =>
      if strStartsWith name '"' && strEndsWith name '"' then
        let inner := (name.drop 1).dropLast
        match List.findIdx? (fun spec => spec.1 == inner) col_specs with
        | some index => cols.get? index
        | none => none
      else
        match List.findIdx? (fun spec => eqIgnoreAsciiCase spec.1 name)
            col_specs with
        | some index => cols.get? index
        | none => none

/-- Readiness of the in-place row slot: whenever the response has a first
row, all of its columns decode and the slot is wide enough for the indexed
writes of `decode_next_row`. -/
def rowDecodeReady (pg : RowsPage) (r : CassRow) : Prop :=
  ∀ first rest, pg.rows = first :: rest →
    (∀ x ∈ pg.specs.zip first,
        (decode_value { spec := x.1.2, slice := x.2 } x.1.2).isSome = true) ∧
    (pg.specs.zip first).length ≤ r.columns.length

/-- Well-formed iterator state over a source of `N` elements, relative to
the stored cursor `p`: the source is large enough and parses cleanly, so
every in-bounds advance succeeds.  For the flat map presentation
`(nextPos p + 1) / 2` is the number of pairs already consumed. -/
def Sim : CassIterator → Option Nat → Nat → Prop
  | .resultIter st, p, N =>
      st.position = p ∧
      ((st.result.result.rowsPage = none ∧ N = 0) ∨
        (∃ pg, st.result.result.rowsPage = some pg ∧ N = pg.rows.length ∧
          (st.row = none ∨ ∃ r, st.row = some r ∧ rowDecodeReady pg r)))
  | .rowIter st, p, N => st.position = p ∧ N = st.row.columns.length
  | .collectionIter (.sequenceIterator st), p, N =>
      st.position = p ∧ N = st.count ∧
      ∀ j, nextPos p + j < N →
        ∃ raw, st.sequence_iterator.get? j = some (some raw)
  | .collectionIter (.seqMapIterator st), p, N =>
      st.position = p ∧ N = st.count ∧
      ∀ j, 2 * ((nextPos p + 1) / 2 + j) < N →
        ∃ e, st.map_iterator.get? j = some e
  | .tupleIter st, p, N =>
      st.position = p ∧ N = st.count ∧
      ∀ j, nextPos p + j < N →
        ∃ raw defs, st.sequence_iterator.get? j = some (some raw) ∧
          raw.spec = ColumnType.tuple defs ∧ nextPos p + j < defs.length
  | .mapIter st, p, N =>
      st.position = p ∧ N = st.count ∧
      ∀ j, nextPos p + j < N →
        ∃ pr, st.map_iterator.get? j = some (some pr)
  | .udtIter st, p, N =>
      st.position = p ∧ N = st.count ∧
      ∀ j, nextPos p + j < N →
        ∃ nt fs, st.udt_iterator.get? j = some (some (nt, some fs))
  | .schemaMetaIter st, p, N => st.position = p ∧ N = st.count
  | .keyspaceMetaTableIter st, p, N => st.position = p ∧ N = st.count
  | .keyspaceMetaUserTypeIter st, p, N => st.position = p ∧ N = st.count
  | .keyspaceMetaViewIter st, p, N => st.position = p ∧ N = st.count
  | .tableMetaIter st, p, N => st.position = p ∧ N = st.count
  | .viewMetaIter st, p, N => st.position = p ∧ N = st.count

/-- Big-endian 4-byte encoding of a small integer value. -/
def encInt (n : Nat) : Frame := [0, 0, 0, n]

/-- Scenario A response: three rows of a single int column with values
1, 2, 3. -/
def scenarioA_page : RowsPage :=
  { specs := [(['c'], ColumnType.int)]
    rows := [[some (encInt 1)], [some (encInt 2)], [some (encInt 3)]] }

/-- The decoded first-row value of the Scenario A response. -/
def scenarioA_value : CassValue :=
  { frame_slice := some (encInt 1)
    is_null := false
    count := 0
    value_type := ColumnType.int
    column_type := ColumnType.int }

/-- The Scenario A result with its eagerly decoded first row. -/
def scenarioA_result : CassResult :=
  { result := { rowsPage := some scenarioA_page }
    first_row := some { columns := [scenarioA_value] } }

/-- Frames of the current row's columns, as seen through
`cass_iterator_get_row`. -/
def rowFrames (it : CassIterator) : Option (List (Option Frame)) :=
  (cass_iterator_get_row it).map (fun r => r.columns.map (fun c => c.frame_slice))

/-- Wire encoding of an int→int map with the single pair 7 ↦ 9. -/
def mapFrame71 : Frame :=
  [0, 0, 0, 1] ++ [0, 0, 0, 4] ++ encInt 7 ++ [0, 0, 0, 4] ++ encInt 9

/-- The decoded map value for `mapFrame71` (one pair). -/
def mapValue71 : CassValue :=
  { frame_slice := some mapFrame71
    is_null := false
    count := 1
    value_type := ColumnType.map ColumnType.int ColumnType.int
    column_type := ColumnType.map ColumnType.int ColumnType.int }

/-- A null value of a map-typed column, as produced by `decode_value` on
an absent span. -/
def nullMapValue : CassValue :=
  { frame_slice := none
    is_null := true
    count := 0
    value_type := ColumnType.map ColumnType.int ColumnType.int
    column_type := ColumnType.map ColumnType.int ColumnType.int }

/-- A null value of an int-typed column. -/
def nullIntValue : CassValue :=
  { frame_slice := none
    is_null := true
    count := 0
    value_type := ColumnType.int
    column_type := ColumnType.int }

/-- A present int value holding 5. -/
def intValue5 : CassValue :=
  { frame_slice := some (encInt 5)
    is_null := false
    count := 0
    value_type := ColumnType.int
    column_type := ColumnType.int }

/-- A result whose single column is named `Foo`, for the lookup claims. -/
def fooResult : CassResult :=
  { result := { rowsPage := some { specs := [(['F', 'o', 'o'], ColumnType.int)]
                                   rows := [[some (encInt 1)]] } }
    first_row := none }

/-- A row with one decoded column, for the lookup claims. -/
def fooRow : CassRow := { columns := [intValue5] }

/-- The value `decode_value` produces for an absent span of declared type
`t`. -/
def nullDecoded (t : ColumnType) : CassValue :=
  { frame_slice := none
    is_null := true
    count := 0
    value_type := get_column_type t
    column_type := t }

/-- The parsed pair stream of `mapFrame71`. -/
def mapPairs71 : List (Option (RawValue × RawValue)) :=
  [some ({ spec := ColumnType.int, slice := some (encInt 7) },
         { spec := ColumnType.int, slice := some (encInt 9) })]

/-!  Theorems.  -/

/-- Unrolling one advance off the back of a run. -/
theorem runNext_succ (it : CassIterator) (k : Nat) :
    runNext it (k + 1) =
      (match runNext it k with
       | .crash => .crash
       | .ok p => cass_iterator_next p.1) := by
  induction k generalizing it with
  | zero =>
      rcases h : cass_iterator_next it with _ | ⟨it2, b⟩
      · simp [runNext, h]
      · simp [runNext, h]
  | succ n ih =>
      rcases h : cass_iterator_next it with _ | ⟨it2, b⟩
      · simp [runNext, h]
      · simp only [runNext, h]
        exact ih it2

/-- C1: evaluating the result iterator on the Scenario A response (three
rows of one int column holding 1, 2, 3).  All three successful advances
leave the bytes of the *first* row (value 1) in the shared row slot —
`decode_next_row` rebuilds the rows iterator from the result on every call
and takes its first element — so the iteration exposes 1, 1, 1 instead of
1, 2, 3; the fourth advance reports exhaustion.  This evaluates the code at
the claim's failing input. -/
theorem c1_result_iterator_repeats_first_row :
    (runNext (cass_iterator_from_result scenarioA_result) 0).map
        (fun p => (p.2, rowFrames p.1)) = .ok (true, some [some (encInt 1)]) ∧
    (runNext (cass_iterator_from_result scenarioA_result) 1).map
        (fun p => (p.2, rowFrames p.1)) = .ok (true, some [some (encInt 1)]) ∧
    (runNext (cass_iterator_from_result scenarioA_result) 2).map
        (fun p => (p.2, rowFrames p.1)) = .ok (true, some [some (encInt 1)]) ∧
    (runNext (cass_iterator_from_result scenarioA_result) 3).map
        (fun p => p.2) = .ok false :=
  ⟨rfl, rfl, rfl, rfl⟩

/-- C2 counterexample: on a present-but-empty span the claim fails — for a
collection type `decode_value` returns no value at all (the length-prefix
read fails), and for a tuple type the count is the declared arity (here 1),
not 0. -/
theorem c2_counterexample_empty_span :
    decode_value { spec := ColumnType.list ColumnType.int, slice := some [] }
        (ColumnType.list ColumnType.int) = none ∧
    (decode_value { spec := ColumnType.tuple [ColumnType.int], slice := some [] }
        (ColumnType.tuple [ColumnType.int])).map
      (fun cv => (cv.is_null, cv.count)) = some (true, 1) :=
  ⟨rfl, rfl⟩

/-- C2 (amended): decoding from an absent span yields `is_null = true` and
`count = 0` for every declared type; decoding from a present-but-empty
span yields `is_null = true` with `count = 0` only for
non-collection/tuple/user types — a user type or tuple keeps its declared
arity as count, and a collection type fails to decode entirely. -/
theorem c2_decode_absent_or_empty (t : ColumnType) :
    (∃ cv, decode_value { spec := t, slice := none } t = some cv ∧
      cv.is_null = true ∧ cv.count = 0) ∧
    (t.is_collection = true →
      decode_value { spec := t, slice := some [] } t = none) ∧
    (t.is_collection = false →
      ∃ cv, decode_value { spec := t, slice := some [] } t = some cv ∧
        cv.is_null = true ∧
        cv.count = (if t.is_user_type then t.udt_arity
          else if t.is_tuple then t.tuple_arity else 0)) := by
  refine ⟨⟨_, rfl, rfl, rfl⟩, ?_, ?_⟩
  · intro h
    cases t <;> first
      | rfl
      | simp [ColumnType.is_collection] at h
  · intro h
    cases t <;> first
      | exact ⟨_, rfl, rfl, rfl⟩
      | simp [ColumnType.is_collection] at h

/-- C2 witness: the amended theorem applied at a tuple of one int with an
empty span. -/
theorem c2_decode_absent_or_empty_witness :
    (decode_value { spec := ColumnType.tuple [ColumnType.int], slice := some [] }
        (ColumnType.tuple [ColumnType.int])).map
      (fun cv => (cv.is_null, cv.count)) = some (true, 1) := by
  obtain ⟨cv, h1, h2, h3⟩ :=
    (c2_decode_absent_or_empty (ColumnType.tuple [ColumnType.int])).2.2 rfl
  rw [h1]
  simp only [Option.map]
  rw [h2, h3]
  decide

/-- C4: reading the current map key or value before any advance panics.
`cass_iterator_from_map` on a well-formed one-pair map yields an iterator
whose position is `None`; `cass_iterator_get_map_key` and
`cass_iterator_get_map_value` on it hit the failed
`assert!(position.map(|pos| pos < count).is_some())` and crash instead of
returning a null pointer or a failure status. -/
theorem c4_map_current_before_advance_panics :
    (cass_iterator_from_map mapValue71).map cass_iterator_get_map_key =
      some Outcome.crash ∧
    (cass_iterator_from_map mapValue71).map cass_iterator_get_map_value =
      some Outcome.crash :=
  ⟨rfl, rfl⟩

/-- Behaviour of a strict-typed accessor on a non-null value: the null
branch is skipped, leaving the declared-type match and the strict parse. -/
theorem strict_accessor_not_null (accepts : CassValueType → Bool)
    (wire : ColumnType) (v : CassValue) (hnn : v.is_null = false) :
    cass_value_get_strict accepts wire v =
      (if accepts (cass_value_type v) then
        (if wireParseOk wire v.frame_slice then CassError.CASS_OK
         else CassError.CASS_ERROR_LIB_NOT_ENOUGH_DATA)
       else CassError.CASS_ERROR_LIB_INVALID_VALUE_TYPE) := by
  simp [cass_value_get_strict, cass_value_is_null, hnn]

/-- C6 counterexample: two concrete violations of the claim as stated.  A
null value of declared type int read through the string accessor returns
the null-value status — not the type-mismatch status the claim requires for
every value outside the accessor's set — and the bytes accessor succeeds on
a non-null int value, a third cross-type aliasing beyond the two the claim
allows. -/
theorem c6_counterexample_null_and_bytes :
    cass_value_get_string nullIntValue =
      CassError.CASS_ERROR_LIB_NULL_VALUE ∧
    cass_value_get_string nullIntValue ≠
      CassError.CASS_ERROR_LIB_INVALID_VALUE_TYPE ∧
    cass_value_get_bytes intValue5 = CassError.CASS_OK :=
  ⟨rfl, by decide, rfl⟩

/-- C6 (amended): for every *non-null* value, the 64-bit accessor returns
type-mismatch exactly outside {bigint, counter, timestamp, time}, the UUID
accessor outside {uuid, timeuuid}, the string accessor outside the string
family; the bytes accessor accepts every declared type, and null values
short-circuit to the null-value status before any type check. -/
theorem c6_typed_accessor_aliasing (v : CassValue) (hnn : v.is_null = false) :
    (cass_value_type v ≠ .bigint → cass_value_type v ≠ .counter →
      cass_value_type v ≠ .timestamp → cass_value_type v ≠ .time →
      cass_value_get_int64 v = CassError.CASS_ERROR_LIB_INVALID_VALUE_TYPE) ∧
    ((cass_value_type v = .bigint ∨ cass_value_type v = .counter ∨
      cass_value_type v = .timestamp ∨ cass_value_type v = .time) →
      cass_value_get_int64 v ≠ CassError.CASS_ERROR_LIB_INVALID_VALUE_TYPE) ∧
    (cass_value_type v ≠ .uuid → cass_value_type v ≠ .timeuuid →
      cass_value_get_uuid v = CassError.CASS_ERROR_LIB_INVALID_VALUE_TYPE) ∧
    ((cass_value_type v = .uuid ∨ cass_value_type v = .timeuuid) →
      cass_value_get_uuid v ≠ CassError.CASS_ERROR_LIB_INVALID_VALUE_TYPE) ∧
    (cass_value_type v ≠ .ascii → cass_value_type v ≠ .text →
      cass_value_type v ≠ .varchar →
      cass_value_get_string v = CassError.CASS_ERROR_LIB_INVALID_VALUE_TYPE) ∧
    (cass_value_get_bytes v ≠ CassError.CASS_ERROR_LIB_INVALID_VALUE_TYPE) := by
  rw [show cass_value_get_int64 v = _ from strict_accessor_not_null _ _ v hnn,
      show cass_value_get_uuid v = _ from strict_accessor_not_null _ _ v hnn,
      show cass_value_get_string v = _ from strict_accessor_not_null _ _ v hnn,
      show cass_value_get_bytes v = _ from strict_accessor_not_null _ _ v hnn]
  refine ⟨?_, ?_, ?_, ?_, ?_, ?_⟩ <;>
    cases ht : cass_value_type v <;>
      simp_all <;> split <;> simp_all

/-- C6 witness: the amended theorem applied to a present int value read
through the string accessor. -/
theorem c6_typed_accessor_aliasing_witness :
    cass_value_get_string intValue5 =
      CassError.CASS_ERROR_LIB_INVALID_VALUE_TYPE :=
  (c6_typed_accessor_aliasing intValue5 rfl).2.2.2.2.1
    (by decide) (by decide) (by decide)

/-- C8: a value decoded from an absent column span is null, and every
typed scalar accessor on it returns the null-value status — never the
type-mismatch status. -/
theorem c8_null_value_accessors (t : ColumnType) (cv : CassValue)
    (h : decode_value { spec := t, slice := none } t = some cv) :
    cv.is_null = true ∧
    cass_value_get_bool cv = CassError.CASS_ERROR_LIB_NULL_VALUE ∧
    cass_value_get_int8 cv = CassError.CASS_ERROR_LIB_NULL_VALUE ∧
    cass_value_get_int16 cv = CassError.CASS_ERROR_LIB_NULL_VALUE ∧
    cass_value_get_int32 cv = CassError.CASS_ERROR_LIB_NULL_VALUE ∧
    cass_value_get_int64 cv = CassError.CASS_ERROR_LIB_NULL_VALUE ∧
    cass_value_get_float cv = CassError.CASS_ERROR_LIB_NULL_VALUE ∧
    cass_value_get_double cv = CassError.CASS_ERROR_LIB_NULL_VALUE ∧
    cass_value_get_string cv = CassError.CASS_ERROR_LIB_NULL_VALUE ∧
    cass_value_get_bytes cv = CassError.CASS_ERROR_LIB_NULL_VALUE ∧
    cass_value_get_uuid cv = CassError.CASS_ERROR_LIB_NULL_VALUE ∧
    cass_value_get_inet cv = CassError.CASS_ERROR_LIB_NULL_VALUE ∧
    cass_value_get_duration cv = CassError.CASS_ERROR_LIB_NULL_VALUE ∧
    cass_value_get_uint32 cv = CassError.CASS_ERROR_LIB_NULL_VALUE ∧
    cass_value_get_decimal cv = CassError.CASS_ERROR_LIB_NULL_VALUE := by
  have h0 : decode_value { spec := t, slice := none } t =
      some (nullDecoded t) := rfl
  have h2 : nullDecoded t = cv := Option.some.inj (h0.symm.trans h)
  subst h2
  exact ⟨rfl, rfl, rfl, rfl, rfl, rfl, rfl, rfl, rfl, rfl, rfl, rfl, rfl,
    rfl, rfl⟩

/-- C8 witness: the theorem applied to the null int value (decoded from an
absent int column). -/
theorem c8_null_value_accessors_witness :
    nullIntValue.is_null = true ∧
    cass_value_get_uuid nullIntValue = CassError.CASS_ERROR_LIB_NULL_VALUE :=
  ⟨(c8_null_value_accessors ColumnType.int nullIntValue rfl).1,
   (c8_null_value_accessors ColumnType.int nullIntValue rfl).2.2.2.2.2.2.2.2.2.2.1⟩

/-- C9: building a collection iterator from a null collection value
returns the null iterator handle, and every value that `decode_value`
produces for a collection-typed column with `is_null = true` has
`count = 0` (the only way such a value arises is from an absent span — an
empty present span makes the decode fail instead). -/
theorem c9_null_collection_iterator (v : CassValue) (t : ColumnType)
    (s : Option Frame) :
    (v.is_null = true → cass_iterator_from_collection v = .ok none) ∧
    (t.is_collection = true →
      ∀ cv, decode_value { spec := t, slice := s } t = some cv →
        cv.is_null = true → cv.count = 0) := by
  constructor
  · intro h
    simp [cass_iterator_from_collection, h]
  · intro ht cv hdec hnull
    cases s with
    | none =>
        have h0 : decode_value { spec := t, slice := none } t =
            some (nullDecoded t) := rfl
        have h2 : nullDecoded t = cv := Option.some.inj (h0.symm.trans hdec)
        rw [← h2]
        rfl
    | some f =>
        simp only [decode_value, get_column_type, ht, if_true] at hdec
        rcases hri : readIntLength f with _ | ⟨len, rest⟩
        · rw [hri] at hdec
          simp at hdec
        · rw [hri] at hdec
          simp only [Option.some.injEq] at hdec
          rw [← hdec] at hnull
          simp only at hnull
          have hf : f = [] := by
            simpa [List.isEmpty_iff] using hnull
          rw [hf] at hri
          simp [readIntLength, readBe4] at hri

/-- C9 witness: the theorem applied to the null map value. -/
theorem c9_null_collection_iterator_witness :
    cass_iterator_from_collection nullMapValue = .ok none ∧
    nullMapValue.count = 0 :=
  ⟨(c9_null_collection_iterator nullMapValue
      (ColumnType.map ColumnType.int ColumnType.int) none).1 rfl,
   (c9_null_collection_iterator nullMapValue
      (ColumnType.map ColumnType.int ColumnType.int) none).2 rfl
      nullMapValue rfl rfl⟩

/-- The case-sensitive scan's predicate simplifies to plain equality. -/
theorem columnLookup_caseSensitive (result : CassResult) (row : CassRow)
    (nm : Str) :
    columnLookup result row nm true =
      (match column_specs result.result with
       | none => none
       | some specs =>
           match List.findIdx? (fun spec => spec.1 == nm) specs with
           | some index => row.columns.get? index
           | none => none) := by
  simp only [columnLookup, Bool.true_and, Bool.not_true, Bool.false_and,
    Bool.or_false]
  rcases hc : column_specs result.result with _ | specs
  · simp
  · rcases hf : List.findIdx? (fun spec => spec.1 == nm) specs with _ | idx
    · simp [hf]
    · simp [hf]

/-- The case-insensitive scan's predicate simplifies to the ascii-folded
comparison. -/
theorem columnLookup_caseInsensitive (result : CassResult) (row : CassRow)
    (nm : Str) :
    columnLookup result row nm false =
      (match column_specs result.result with
       | none => none
       | some specs =>
           match List.findIdx? (fun spec => eqIgnoreAsciiCase spec.1 nm) specs
               with
           | some index => row.columns.get? index
           | none => none) := by
  simp only [columnLookup, Bool.false_and, Bool.not_false, Bool.true_and,
    Bool.false_or]
  rcases hc : column_specs result.result with _ | specs
  · simp
  · rcases hf : List.findIdx? (fun spec => eqIgnoreAsciiCase spec.1 nm) specs
        with _ | idx
    · simp [hf]
    · simp [hf]

/-- C7 counterexample: the single-character lookup name `"` both starts
and ends with a quote, so the code takes the quoted path, strips the
prefix (leaving the empty string) and panics unwrapping the failed suffix
strip — it neither returns a matching column nor a null pointer. -/
theorem c7_counterexample_lone_quote :
    cass_row_get_column_by_name_n fooResult fooRow ['"'] = .crash :=
  rfl

/-- C7 (amended): for every lookup name other than the single quote
character, `cass_row_get_column_by_name_n` behaves as the claim states —
a name wrapped in quotes is stripped and matched case-sensitively and
exactly, any other name case-insensitively, the first matching column spec
wins, and no match yields null. -/
theorem c7_lookup_by_name (result : CassResult) (row : CassRow) (name : Str)
    (h : name ≠ ['"']) :
    cass_row_get_column_by_name_n result row name =
      .ok (lookupByNameSpec (column_specs result.result) row.columns name) := by
  by_cases hq : (strStartsWith name '"' && strEndsWith name '"') = true
  · cases name with
    | nil => simp [strStartsWith] at hq
    | cons c s1 =>
      have hc : c = '"' := by
        have h2 := hq
        simp only [Bool.and_eq_true, strStartsWith, beq_iff_eq] at h2
        exact h2.1
      subst hc
      cases s1 with
      | nil => exact absurd rfl h
      | cons b l =>
        have hl : (b :: l).getLast? = some '"' := by
          have h2 := hq
          simp only [Bool.and_eq_true, strEndsWith,
            List.getLast?_cons_cons] at h2
          rcases h3 : (b :: l).getLast? with _ | a
          · rw [h3] at h2
            simp at h2
          · rw [h3] at h2
            simp only [beq_iff_eq] at h2
            rw [h2.2]
        have hend : strEndsWith ('"' :: b :: l) '"' = true := by
          simp [strEndsWith, List.getLast?_cons_cons, hl]
        have hcode : cass_row_get_column_by_name_n result row ('"' :: b :: l) =
            .ok (columnLookup result row (b :: l).dropLast true) := by
          simp [cass_row_get_column_by_name_n, strStartsWith, hend,
            stripHead, stripLast, hl]
        have hspec : lookupByNameSpec (column_specs result.result) row.columns
            ('"' :: b :: l) =
            (match column_specs result.result with
             | none => none
             | some specs =>
                 match List.findIdx?
                     (fun spec => spec.1 == (b :: l).dropLast) specs with
                 | some index => row.columns.get? index
                 | none => none) := by
          simp [lookupByNameSpec, strStartsWith, hend]
        rw [hcode, hspec, columnLookup_caseSensitive]
  · rw [Bool.not_eq_true] at hq
    have hcode : cass_row_get_column_by_name_n result row name =
        .ok (columnLookup result row name false) := by
      simp [cass_row_get_column_by_name_n, hq]
    have hspec : lookupByNameSpec (column_specs result.result) row.columns
        name =
        (match column_specs result.result with
         | none => none
         | some specs =>
             match List.findIdx? (fun spec => eqIgnoreAsciiCase spec.1 name)
                 specs with
             | some index => row.columns.get? index
             | none => none) := by
      simp [lookupByNameSpec, hq]
    rw [hcode, hspec, columnLookup_caseInsensitive]

/-- C7 witness: the amended theorem applied to the unquoted lookup `foo`
over a column named `Foo` (which matches case-insensitively). -/
theorem c7_lookup_by_name_witness :
    cass_row_get_column_by_name_n fooResult fooRow ['f', 'o', 'o'] =
      .ok (lookupByNameSpec (column_specs fooResult.result) fooRow.columns
        ['f', 'o', 'o']) :=
  c7_lookup_by_name fooResult fooRow ['f', 'o', 'o'] (by decide)

/-- Trace of the flat map-as-sequence iterator over a well-formed pair
stream: after `k + 1` advances (all successful) the cursor sits at
position `k`, `k / 2 + 1` pairs have been consumed, and the key/value
slots hold the decodes of pair `k / 2` — so a new pair is decoded exactly
at even positions and odd positions reuse the previous pair. -/
theorem seqMap_trace (P : Nat) (pairs : List (Option (RawValue × RawValue)))
    (h6 : ∀ j, j < P → ∃ rk rv dk dv,
        pairs.get? j = some (some (rk, rv)) ∧
        decode_value rk rk.spec = some dk ∧
        decode_value rv rv.spec = some dv) :
    ∀ k, k < 2 * P →
      ∃ st, runNext (.collectionIter (.seqMapIterator
          { map_iterator := pairs, key := none, value := none,
            count := P * 2, position := none })) k =
          .ok (.collectionIter (.seqMapIterator st), true) ∧
        st.position = some k ∧
        st.count = P * 2 ∧
        st.map_iterator = pairs.drop (k / 2 + 1) ∧
        ∃ rk rv, pairs.get? (k / 2) = some (some (rk, rv)) ∧
          st.key = decode_value rk rk.spec ∧
          st.value = decode_value rv rv.spec := by
  intro k
  induction k with
  | zero =>
      intro hk
      have hP : 0 < P := by omega
      obtain ⟨rk, rv, dk, dv, hget, hdk, hdv⟩ := h6 0 hP
      obtain ⟨hd, tl, hpairs⟩ : ∃ hd tl, pairs = hd :: tl := by
        cases pairs with
        | nil => simp at hget
        | cons hd tl => exact ⟨hd, tl, rfl⟩
      subst hpairs
      have hhd : hd = some (rk, rv) := by simpa using hget
      subst hhd
      have h02 : 0 < P * 2 := by omega
      refine ⟨{ map_iterator := tl, key := decode_value rk rk.spec,
                value := decode_value rv rv.spec, count := P * 2,
                position := some 0 }, ?_, rfl, rfl, ?_, rk, rv, ?_, rfl, rfl⟩
      · simp [runNext, cass_iterator_next, nextPos, h02]
      · norm_num
      · norm_num
  | succ k ih =>
      intro hk1
      have hk : k < 2 * P := by omega
      obtain ⟨st, hrun, hpos, hcnt, hmap, rk, rv, hget, hkey, hval⟩ := ih hk
      rw [runNext_succ, hrun]
      have hb : k + 1 < P * 2 := by omega
      by_cases hpar : (k + 1) % 2 = 0
      · -- even new position: a fresh pair is decoded
        have hlt : (k + 1) / 2 < P := by omega
        obtain ⟨rk2, rv2, dk2, dv2, hget2, hdk2, hdv2⟩ := h6 ((k + 1) / 2) hlt
        have hidx : k / 2 + 1 = (k + 1) / 2 := by omega
        rw [hidx] at hmap
        have hlen : (k + 1) / 2 < pairs.length := (List.get?_eq_some.mp hget2).choose
        have hdrop : pairs.drop ((k + 1) / 2) =
            some (rk2, rv2) :: pairs.drop ((k + 1) / 2 + 1) := by
          rw [List.drop_eq_get_cons hlen]
          have h2 := (List.get?_eq_some.mp hget2).choose_spec
          rw [h2]
        refine ⟨{ map_iterator := pairs.drop ((k + 1) / 2 + 1),
                  key := decode_value rk2 rk2.spec,
                  value := decode_value rv2 rv2.spec, count := P * 2,
                  position := some (k + 1) }, ?_, rfl, rfl, rfl, rk2, rv2,
                hget2, rfl, rfl⟩
        simp [cass_iterator_next, nextPos, hpos, hcnt, hb, hpar, hmap, hdrop]
      · -- odd new position: the previous pair is reused
        have hpar1 : (k + 1) % 2 = 1 := by omega
        have hidx : (k + 1) / 2 = k / 2 := by omega
        refine ⟨{ map_iterator := pairs.drop (k / 2 + 1), key := st.key,
                  value := st.value, count := P * 2,
                  position := some (k + 1) }, ?_, rfl, rfl, by rw [hidx],
                rk, rv, by rw [hidx]; exact hget, hkey, hval⟩
        simp [cass_iterator_next, nextPos, hpos, hcnt, hb, hpar1, hmap]

/-- C3: a map value with `P` pairs exposed through the generic collection
iterator.  `cass_iterator_from_collection` produces the flat iterator with
count `2 × P`; after each successful advance to position `k` the current
pair is pair `k / 2` (so even positions decode a new pair and odd
positions decode nothing, reusing the previously decoded pair), the pair
stream has advanced only past pair `k / 2`, and
`cass_iterator_get_value` exposes the stored key at even positions and the
stored value at odd ones. -/
theorem c3_map_as_flat_sequence (v : CassValue) (kt vt : ColumnType)
    (P : Nat) (pairs : List (Option (RawValue × RawValue)))
    (h1 : v.is_null = false)
    (h2 : v.column_type = ColumnType.map kt vt)
    (h3 : v.value_type = ColumnType.map kt vt)
    (h4 : v.count = P)
    (h5 : mapIterOf (ColumnType.map kt vt) v.frame_slice = some pairs)
    (h6 : ∀ j, j < P → ∃ rk rv dk dv,
        pairs.get? j = some (some (rk, rv)) ∧
        decode_value rk rk.spec = some dk ∧
        decode_value rv rv.spec = some dv) :
    cass_iterator_from_collection v =
      .ok (some (.collectionIter (.seqMapIterator
        { map_iterator := pairs, key := none, value := none,
          count := P * 2, position := none }))) ∧
    ∀ k, k < 2 * P →
      ∃ st, runNext (.collectionIter (.seqMapIterator
          { map_iterator := pairs, key := none, value := none,
            count := P * 2, position := none })) k =
          .ok (.collectionIter (.seqMapIterator st), true) ∧
        st.position = some k ∧
        st.map_iterator = pairs.drop (k / 2 + 1) ∧
        (∃ rk rv, pairs.get? (k / 2) = some (some (rk, rv)) ∧
          st.key = decode_value rk rk.spec ∧
          st.value = decode_value rv rv.spec) ∧
        cass_iterator_get_value (.collectionIter (.seqMapIterator st)) =
          (if k % 2 == 0 then st.key else st.value) := by
  constructor
  · simp [cass_iterator_from_collection, h1, h2, h3, h4, h5,
      ColumnType.is_collection]
  · intro k hk
    obtain ⟨st, hrun, hpos, hcnt, hmap, rk, rv, hget, hkey, hval⟩ :=
      seqMap_trace P pairs h6 k hk
    obtain ⟨rk2, rv2, dk, dv, hget2, hdk, hdv⟩ := h6 (k / 2) (by omega)
    have hrr : rk2 = rk ∧ rv2 = rv := by
      have := hget2.symm.trans hget
      simp only [Option.some.injEq, Prod.mk.injEq] at this
      exact this
    obtain ⟨hrk, hrv⟩ := hrr
    subst hrk hrv
    refine ⟨st, hrun, hpos, hmap, ⟨rk2, rv2, hget, hkey, hval⟩, ?_⟩
    rw [show st.key = decode_value rk2 rk2.spec from hkey,
        show st.value = decode_value rv2 rv2.spec from hval, hdk, hdv]
    simp only [cass_iterator_get_value, hkey, hdk, hval, hdv, hpos]
    by_cases hp : k % 2 = 0
    · simp [hp]
    · have hp1 : k % 2 = 1 := by omega
      simp [hp1]

/-- C3 witness: the theorem applied to the concrete one-pair int→int map
value `mapValue71`. -/
theorem c3_map_as_flat_sequence_witness :
    cass_iterator_from_collection mapValue71 =
      .ok (some (.collectionIter (.seqMapIterator
        { map_iterator := mapPairs71, key := none, value := none,
          count := 1 * 2, position := none }))) :=
  (c3_map_as_flat_sequence mapValue71 ColumnType.int ColumnType.int 1
    mapPairs71 rfl rfl rfl rfl rfl
    (fun j hj => by
      interval_cases j
      exact ⟨_, _, _, _, rfl, rfl, rfl⟩)).1

/-- When every column of the row decodes and the slot is wide enough, the
write loop of `decode_next_row` succeeds and preserves the slot width. -/
theorem setColumns_ok (l : List ((Str × ColumnType) × Option Frame)) :
    ∀ (cols : List CassValue) (i : Nat),
    (∀ x ∈ l, (decode_value { spec := x.1.2, slice := x.2 } x.1.2).isSome
      = true) →
    i + l.length ≤ cols.length →
    ∃ cols2, setColumns cols i l = .ok (cols2, true) ∧
      cols2.length = cols.length := by
  induction l with
  | nil =>
      intro cols i _ _
      exact ⟨cols, rfl, rfl⟩
  | cons x rest ih =>
      intro cols i hdec hlen
      obtain ⟨spec, slice⟩ := x
      have hx := hdec (spec, slice) (by simp)
      rcases hv : decode_value { spec := spec.2, slice := slice } spec.2
          with _ | v
      · rw [hv] at hx
        simp at hx
      · have hi : i < cols.length := by
          simp only [List.length_cons] at hlen
          omega
        obtain ⟨cols2, hset, hlen2⟩ := ih (cols.set i v) (i + 1)
          (fun y hy => hdec y (by simp [hy]))
          (by simp only [List.length_set]; simp only [List.length_cons] at hlen; omega)
        refine ⟨cols2, ?_, by rw [hlen2]; simp⟩
        simp only [setColumns, hv, hi, if_true]
        exact hset

/-- When the first row decodes and the slot is wide enough,
`decode_next_row` reports success and keeps the slot width. -/
theorem decode_next_row_ok (result : CassResult) (r : CassRow)
    (pg : RowsPage) (hpg : result.result.rowsPage = some pg)
    (first : List (Option Frame)) (rest : List (List (Option Frame)))
    (hrows : pg.rows = first :: rest)
    (hdec : ∀ x ∈ pg.specs.zip first,
      (decode_value { spec := x.1.2, slice := x.2 } x.1.2).isSome = true)
    (hlen : (pg.specs.zip first).length ≤ r.columns.length) :
    ∃ r2, decode_next_row result (some r) = .ok (some r2, true) ∧
      r2.columns.length = r.columns.length := by
  obtain ⟨cols2, hset, hl2⟩ :=
    setColumns_ok (pg.specs.zip first) r.columns 0 hdec (by omega)
  refine ⟨{ columns := cols2 }, ?_, hl2⟩
  simp [decode_next_row, hpg, hrows, hset]

/-- One step of any well-formed iterator: the advance never panics,
returns success exactly when the new position is in bounds, and preserves
well-formedness at the incremented cursor. -/
theorem sim_next (it : CassIterator) (p : Option Nat) (N : Nat)
    (h : Sim it p N) :
    ∃ it2, cass_iterator_next it = .ok (it2, decide (nextPos p < N)) ∧
      Sim it2 (some (nextPos p)) N := by
  cases it with
  | resultIter st =>
      obtain ⟨hp, hrest⟩ := h
      subst hp
      rcases hrest with ⟨hnone, hN0⟩ | ⟨pg, hpg, hN, hrow⟩
      · subst hN0
        refine ⟨.resultIter { st with position := some (nextPos st.position) },
          ?_, rfl, Or.inl ⟨hnone, rfl⟩⟩
        simp [cass_iterator_next, rows_num, hnone]
      · by_cases hb : nextPos st.position < N
        · have hne : pg.rows ≠ [] := by
            intro h0
            rw [hN, h0] at hb
            simp at hb
          obtain ⟨first, rows2, hrows⟩ : ∃ f r2, pg.rows = f :: r2 := by
            cases hr0 : pg.rows with
            | nil => exact absurd hr0 hne
            | cons f r2 => exact ⟨f, r2, rfl⟩
          rcases hrow with hrnone | ⟨r, hr, hready⟩
          · refine ⟨.resultIter
              { st with position := some (nextPos st.position), row := none },
              ?_, rfl, Or.inr ⟨pg, hpg, hN, Or.inl rfl⟩⟩
            have hb2 : nextPos st.position < pg.rows.length := hN ▸ hb
            simp [cass_iterator_next, rows_num, hpg, hb2, hrnone,
              decode_next_row, hb]
          · have hzip := hready first rows2 hrows
            obtain ⟨r2, hdnr, hlen2⟩ := decode_next_row_ok st.result r pg hpg
              first rows2 hrows hzip.1 hzip.2
            refine ⟨.resultIter
              { st with position := some (nextPos st.position),
                        row := some r2 },
              ?_, rfl, Or.inr ⟨pg, hpg, hN, Or.inr ⟨r2, rfl, ?_⟩⟩⟩
            · have hb2 : nextPos st.position < pg.rows.length := hN ▸ hb
              simp [cass_iterator_next, rows_num, hpg, hb2, hr, hdnr, hb]
            · intro f2 r2' heq
              rw [hrows] at heq
              obtain ⟨hf, _⟩ := List.cons.inj heq
              subst hf
              exact ⟨hzip.1, by rw [hlen2]; exact hzip.2⟩
        · refine ⟨.resultIter { st with position := some (nextPos st.position) },
            ?_, rfl, Or.inr ⟨pg, hpg, hN, hrow⟩⟩
          have hb2 : ¬ nextPos st.position < pg.rows.length := hN ▸ hb
          simp [cass_iterator_next, rows_num, hpg, hb2, hb]
  | rowIter st =>
      obtain ⟨hp, hN⟩ := h
      subst hp hN
      exact ⟨.rowIter { st with position := some (nextPos st.position) },
        by simp [cass_iterator_next], rfl, rfl⟩
  | collectionIter c =>
      cases c with
      | sequenceIterator st =>
          obtain ⟨hp, hN, hj⟩ := h
          subst hp hN
          have hm1 : nextPos (some (nextPos st.position)) =
              nextPos st.position + 1 := rfl
          by_cases hb : nextPos st.position < st.count
          · obtain ⟨raw, hget0⟩ := hj 0 (by omega)
            cases hseq : st.sequence_iterator with
            | nil =>
                rw [hseq] at hget0
                simp at hget0
            | cons hd tl =>
                have hhd : hd = some raw := by
                  rw [hseq] at hget0
                  simpa using hget0
                subst hhd
                refine ⟨.collectionIter (.sequenceIterator
                  { sequence_iterator := tl,
                    value := decode_value raw raw.spec,
                    count := st.count,
                    position := some (nextPos st.position) }),
                  ?_, rfl, rfl, ?_⟩
                · simp [cass_iterator_next, hb, hseq]
                · intro j hj2
                  rw [hm1] at hj2
                  have := hj (j + 1) (by omega)
                  rw [hseq] at this
                  simp only [List.get?_cons_succ] at this
                  exact this
          · refine ⟨.collectionIter (.sequenceIterator
              { st with position := some (nextPos st.position) }),
              ?_, rfl, rfl, ?_⟩
            · simp [cass_iterator_next, hb]
            · intro j hj2
              rw [hm1] at hj2
              exact absurd (by omega : nextPos st.position < st.count) hb
      | seqMapIterator st =>
          obtain ⟨hp, hN, hj⟩ := h
          subst hp hN
          have hm1 : nextPos (some (nextPos st.position)) =
              nextPos st.position + 1 := rfl
          by_cases hb : nextPos st.position < st.count
          · by_cases hpar : nextPos st.position % 2 = 0
            · obtain ⟨e, hget0⟩ := hj 0 (by omega)
              rcases e with _ | ⟨rk, rv⟩
              · cases hseq : st.map_iterator with
                | nil =>
                    rw [hseq] at hget0
                    simp at hget0
                | cons hd tl =>
                    have hhd : hd = none := by
                      rw [hseq] at hget0
                      simpa using hget0
                    subst hhd
                    refine ⟨.collectionIter (.seqMapIterator
                      { st with map_iterator := tl,
                                position := some (nextPos st.position) }),
                      ?_, rfl, rfl, ?_⟩
                    · simp [cass_iterator_next, hb, hpar, hseq]
                    · intro j hj2
                      rw [hm1] at hj2
                      have := hj (j + 1) (by omega)
                      rw [hseq] at this
                      simp only [List.get?_cons_succ] at this
                      exact this
              · cases hseq : st.map_iterator with
                | nil =>
                    rw [hseq] at hget0
                    simp at hget0
                | cons hd tl =>
                    have hhd : hd = some (rk, rv) := by
                      rw [hseq] at hget0
                      simpa using hget0
                    subst hhd
                    refine ⟨.collectionIter (.seqMapIterator
                      { st with map_iterator := tl,
                                key := decode_value rk rk.spec,
                                value := decode_value rv rv.spec,
                                position := some (nextPos st.position) }),
                      ?_, rfl, rfl, ?_⟩
                    · simp [cass_iterator_next, hb, hpar, hseq]
                    · intro j hj2
                      rw [hm1] at hj2
                      have := hj (j + 1) (by omega)
                      rw [hseq] at this
                      simp only [List.get?_cons_succ] at this
                      exact this
            · have hpar1 : nextPos st.position % 2 = 1 := by omega
              refine ⟨.collectionIter (.seqMapIterator
                { st with position := some (nextPos st.position) }),
                ?_, rfl, rfl, ?_⟩
              · simp [cass_iterator_next, hb, hpar1]
              · intro j hj2
                rw [hm1] at hj2
                exact hj j (by omega)
          · refine ⟨.collectionIter (.seqMapIterator
              { st with position := some (nextPos st.position) }),
              ?_, rfl, rfl, ?_⟩
            · simp [cass_iterator_next, hb]
            · intro j hj2
              rw [hm1] at hj2
              exact absurd (by omega : nextPos st.position < st.count) hb
  | tupleIter st =>
      obtain ⟨hp, hN, hj⟩ := h
      subst hp hN
      have hm1 : nextPos (some (nextPos st.position)) =
          nextPos st.position + 1 := rfl
      by_cases hb : nextPos st.position < st.count
      · obtain ⟨raw, defs, hget0, hspec, hlt⟩ := hj 0 (by omega)
        cases hseq : st.sequence_iterator with
        | nil =>
            rw [hseq] at hget0
            simp at hget0
        | cons hd tl =>
            have hhd : hd = some raw := by
              rw [hseq] at hget0
              simpa using hget0
            subst hhd
            have hlt0 : nextPos st.position < defs.length := by omega
            have hdefs : defs[nextPos st.position]? =
                some (defs.get ⟨nextPos st.position, hlt0⟩) := by
              rw [List.getElem?_eq_getElem hlt0]
              rfl
            refine ⟨.tupleIter
              { sequence_iterator := tl,
                value := decode_value raw (defs.get ⟨nextPos st.position, hlt0⟩),
                count := st.count,
                position := some (nextPos st.position) },
              ?_, rfl, rfl, ?_⟩
            · simp [cass_iterator_next, hb, hseq, hspec, hdefs]
            · intro j hj2
              rw [hm1] at hj2
              obtain ⟨raw2, defs2, hg2, hs2, hl2⟩ := hj (j + 1) (by omega)
              rw [hseq] at hg2
              refine ⟨raw2, defs2, by simpa using hg2, hs2, ?_⟩
              rw [hm1]
              omega
      · refine ⟨.tupleIter { st with position := some (nextPos st.position) },
          ?_, rfl, rfl, ?_⟩
        · simp [cass_iterator_next, hb]
        · intro j hj2
          rw [hm1] at hj2
          exact absurd (by omega : nextPos st.position < st.count) hb
  | mapIter st =>
      obtain ⟨hp, hN, hj⟩ := h
      subst hp hN
      have hm1 : nextPos (some (nextPos st.position)) =
          nextPos st.position + 1 := rfl
      by_cases hb : nextPos st.position < st.count
      · obtain ⟨⟨rk, rv⟩, hget0⟩ := hj 0 (by omega)
        cases hseq : st.map_iterator with
        | nil =>
            rw [hseq] at hget0
            simp at hget0
        | cons hd tl =>
            have hhd : hd = some (rk, rv) := by
              rw [hseq] at hget0
              simpa using hget0
            subst hhd
            refine ⟨.mapIter
              { map_iterator := tl,
                key := decode_value rk rk.spec,
                value := decode_value rv rv.spec,
                count := st.count,
                position := some (nextPos st.position) },
              ?_, rfl, rfl, ?_⟩
            · simp [cass_iterator_next, hb, hseq]
            · intro j hj2
              rw [hm1] at hj2
              have := hj (j + 1) (by omega)
              rw [hseq] at this
              simp only [List.get?_cons_succ] at this
              exact this
      · refine ⟨.mapIter { st with position := some (nextPos st.position) },
          ?_, rfl, rfl, ?_⟩
        · simp [cass_iterator_next, hb]
        · intro j hj2
          rw [hm1] at hj2
          exact absurd (by omega : nextPos st.position < st.count) hb
  | udtIter st =>
      obtain ⟨hp, hN, hj⟩ := h
      subst hp hN
      have hm1 : nextPos (some (nextPos st.position)) =
          nextPos st.position + 1 := rfl
      by_cases hb : nextPos st.position < st.count
      · obtain ⟨nt, fs, hget0⟩ := hj 0 (by omega)
        cases hseq : st.udt_iterator with
        | nil =>
            rw [hseq] at hget0
            simp at hget0
        | cons hd tl =>
            have hhd : hd = some (nt, some fs) := by
              rw [hseq] at hget0
              simpa using hget0
            subst hhd
            refine ⟨.udtIter
              { udt_iterator := tl,
                field_value := decode_value { spec := nt.2, slice := fs } nt.2,
                field_name := some nt.1,
                count := st.count,
                position := some (nextPos st.position) },
              ?_, rfl, rfl, ?_⟩
            · simp [cass_iterator_next, hb, hseq]
            · intro j hj2
              rw [hm1] at hj2
              have := hj (j + 1) (by omega)
              rw [hseq] at this
              simp only [List.get?_cons_succ] at this
              exact this
      · refine ⟨.udtIter { st with position := some (nextPos st.position) },
          ?_, rfl, rfl, ?_⟩
        · simp [cass_iterator_next, hb]
        · intro j hj2
          rw [hm1] at hj2
          exact absurd (by omega : nextPos st.position < st.count) hb
  | schemaMetaIter st =>
      obtain ⟨hp, hN⟩ := h
      subst hp hN
      exact ⟨.schemaMetaIter { st with position := some (nextPos st.position) },
        by simp [cass_iterator_next], rfl, rfl⟩
  | keyspaceMetaTableIter st =>
      obtain ⟨hp, hN⟩ := h
      subst hp hN
      exact ⟨.keyspaceMetaTableIter
        { st with position := some (nextPos st.position) },
        by simp [cass_iterator_next], rfl, rfl⟩
  | keyspaceMetaUserTypeIter st =>
      obtain ⟨hp, hN⟩ := h
      subst hp hN
      exact ⟨.keyspaceMetaUserTypeIter
        { st with position := some (nextPos st.position) },
        by simp [cass_iterator_next], rfl, rfl⟩
  | keyspaceMetaViewIter st =>
      obtain ⟨hp, hN⟩ := h
      subst hp hN
      exact ⟨.keyspaceMetaViewIter
        { st with position := some (nextPos st.position) },
        by simp [cass_iterator_next], rfl, rfl⟩
  | tableMetaIter st =>
      obtain ⟨hp, hN⟩ := h
      subst hp hN
      exact ⟨.tableMetaIter { st with position := some (nextPos st.position) },
        by simp [cass_iterator_next], rfl, rfl⟩
  | viewMetaIter st =>
      obtain ⟨hp, hN⟩ := h
      subst hp hN
      exact ⟨.viewMetaIter { st with position := some (nextPos st.position) },
        by simp [cass_iterator_next], rfl, rfl⟩

/-- Running a well-formed iterator: the `(k + 1)`-th advance succeeds
exactly when the `(k + 1)`-th position is in bounds. -/
theorem sim_run (k : Nat) :
    ∀ (it : CassIterator) (p : Option Nat) (N : Nat), Sim it p N →
      nthResult it k = .ok (decide (nextPos p + k < N)) := by
  induction k with
  | zero =>
      intro it p N h
      obtain ⟨it2, hnext, _⟩ := sim_next it p N h
      simp [nthResult, runNext, hnext, Outcome.map]
  | succ k ih =>
      intro it p N h
      obtain ⟨it2, hnext, hsim2⟩ := sim_next it p N h
      have h2 := ih it2 (some (nextPos p)) N hsim2
      simp only [nthResult, runNext, hnext] at h2 ⊢
      rw [h2]
      have h3 : nextPos (some (nextPos p)) + k = nextPos p + (k + 1) := by
        have : nextPos (some (nextPos p)) = nextPos p + 1 := rfl
        omega
      rw [h3]

/-- C5: for every iterator variant in a well-formed state over a source of
`N` elements, the first `N` calls to `cass_iterator_next` return success
and every later call returns exhaustion — in particular exhaustion is
idempotent. -/
theorem c5_exactly_n_successes (it : CassIterator) (N : Nat)
    (h : Sim it none N) :
    ∀ k, nthResult it k = .ok (decide (k < N)) := by
  intro k
  have h2 := sim_run k it none N h
  simpa [nextPos] using h2

/-- C5 witness: the theorem applied to a fresh metadata iterator over two
elements — the first two advances succeed, the third and fourth are
exhausted. -/
theorem c5_exactly_n_successes_witness :
    nthResult (.schemaMetaIter { count := 2, position := none }) 1 =
      .ok true ∧
    nthResult (.schemaMetaIter { count := 2, position := none }) 2 =
      .ok false ∧
    nthResult (.schemaMetaIter { count := 2, position := none }) 3 =
      .ok false := by
  have h := c5_exactly_n_successes
    (.schemaMetaIter { count := 2, position := none }) 2 ⟨rfl, rfl⟩
  exact ⟨by simpa using h 1, by simpa using h 2, by simpa using h 3⟩

/-- C10: whatever the variant and however the call turns out (success,
exhaustion, or an internal decode failure), a returning
`cass_iterator_next` always stores exactly the incremented cursor
position, with the uninitialized state acting as position −1. -/
theorem c10_position_always_increments (it it2 : CassIterator) (b : Bool)
    (h : cass_iterator_next it = .ok (it2, b)) :
    positionOf it2 = some (nextPos (positionOf it)) := by
  rcases it with st | st | (st | st) | st | st | st | st | st | st | st | st
  all_goals (
    simp only [cass_iterator_next] at h
    repeat' split at h
    all_goals
      first
        | exact Outcome.noConfusion h
        | (injection h with h1
           injection h1 with h2 h3
           subst h2
           rfl))

/-- C10 witness: the theorem applied to a metadata iterator whose very
first advance reports exhaustion — the position still moves to 0. -/
theorem c10_position_always_increments_witness :
    positionOf (CassIterator.tableMetaIter { count := 0, position := some 0 })
      = some 0 :=
  c10_position_always_increments
    (.tableMetaIter { count := 0, position := none })
    (.tableMetaIter { count := 0, position := some 0 }) false rfl

end QueryResultSpec
